import Mathlib

/-!
Shallow embedding of `pkg/dblist.go` (package `util`): a hybrid in-memory /
on-disk list `DBList[T]` with `NewDBList`, `Add`, `Adds`, `Size`, `Get`,
`getFromStorage`, `retrieveFromDisk`, `Iterator` and `Sort`.

Modelling conventions:
* Machine state is passed explicitly.  A Go method that mutates the receiver
  and returns `error` becomes a function `DBList T → DBList T × Option DBErr`.
* The filesystem and the JSON codec are external collaborators.  They are
  modelled by an `Env` record: `encode`/`decode` are the marshalling
  collaborator, and the `mkdirFails`/`createFails`/`writeFails` fields say
  which filesystem calls fail (indexed by the physical position being
  written, which determines the path being touched).
* The contents of the backing directory are carried in the `disk` field of the
  state, keyed by physical position.  This is faithful because
  `filePathForIndex` maps distinct positions to distinct paths
  (`{basePath}/{position}.json`) and the Go code never touches any other path.
* Go's `sort.SliceStable` (standard library, external to the repository) is
  modelled by `List.insertionSort`, a stable sort, with the order
  `le p q := ¬ less q p` that corresponds to Go's strict `less` callback.
* `Iterator` is modelled as its sequential, uncancelled execution: the loop
  body runs for `i = 0 .. totalCount-1`, collecting the yielded items and the
  indexes reported to the logger (`slog.Error`).
* Go integers are `Nat` where the code keeps them non-negative
  (`totalCount`, lengths); `Get` is additionally modelled on `Int` arguments
  by `GetInt`, which makes the runtime panic of a negative slice index
  explicit as the outcome `GetOutcome.fatal`.
-/

namespace Util

/-- Bytes of one on-disk record (the result of `json.Marshal`). -/
abbrev Bytes := List Nat

/-- Error taxonomy of the operations, as classified by the spec:
IO failures, encode/decode failures and the explicit
`fmt.Errorf("index out of range")` of `Get`. -/
inductive DBErr where
  | ioError
  | encodeError
  | decodeError
  | indexOutOfRange
deriving DecidableEq

/-- External collaborators of `DBList`: the byte codec (`json.Marshal` /
`json.Unmarshal`) and the filesystem calls made by `Add`
(`os.MkdirAll`, `os.Create`, `file.Write`), whose failures are injected per
physical position (each position determines the one path the code touches). -/
structure Env (T : Type) where
  encode : T → Except Unit Bytes
  decode : Bytes → Except Unit T
  mkdirFails : Nat → Bool
  createFails : Nat → Bool
  writeFails : Nat → Bool

/-- State of a `DBList[T]` (fields of the Go struct, minus the mutex, which
only serialises the operations modelled here), together with `disk`:
the contents of the backing directory, keyed by physical position. -/
structure DBList (T : Type) where
  memoryData : List T
  diskPath : String
  maxInMemory : Nat
  totalCount : Nat
  sortedIndexes : List Nat
  isSorted : Bool
  disk : Nat → Option Bytes

variable {T : Type}

/-- Path of the record for a physical position:
`filepath.Join(d.diskPath, fmt.Sprintf("%d.json", index))`.  The `create`
flag only triggers `os.MkdirAll`, which is modelled in `Add` via
`Env.mkdirFails`; path construction itself never fails. -/
def filePathForIndex (d : DBList T) (index : Nat) : String :=
  d.diskPath ++ "/" ++ toString index ++ ".json"

/-- Constructor `NewDBList(path, maxInMemory)`.  The Go constructor does not
touch the filesystem; `disk` starts empty because the claims about disk
contents start from a fresh backing directory. -/
def NewDBList (T : Type) (path : String) (maxInMemory : Nat) : DBList T :=
  { memoryData := []
    diskPath := path
    maxInMemory := maxInMemory
    totalCount := 0
    sortedIndexes := []
    isSorted := true
    disk := fun _ => none }

/-- Method `Add`.  Appends to `memoryData` while it is shorter than
`maxInMemory`, otherwise spills to the record path for the current
`totalCount`: `MkdirAll`, then `json.Marshal`, then `os.Create`, then
`Write`, returning early on the first failure.  A failed `Write` still leaves
the empty file created by `os.Create`.  On success the common tail appends
`totalCount` to `sortedIndexes`, increments `totalCount` and clears
`isSorted`. -/
def Add (env : Env T) (d : DBList T) (item : T) : DBList T × Option DBErr :=
  if d.memoryData.length < d.maxInMemory then
    ({ d with
        memoryData := d.memoryData ++ [item]
        sortedIndexes := d.sortedIndexes ++ [d.totalCount]
        totalCount := d.totalCount + 1
        isSorted := false }, none)
  else if env.mkdirFails d.totalCount then
    (d, some DBErr.ioError)
  else
    match env.encode item with
    | Except.error _ => (d, some DBErr.encodeError)
    | Except.ok data =>
      if env.createFails d.totalCount then
        (d, some DBErr.ioError)
      else if env.writeFails d.totalCount then
        ({ d with disk := fun i => if i = d.totalCount then some [] else d.disk i },
          some DBErr.ioError)
      else
        ({ d with
            disk := fun i => if i = d.totalCount then some data else d.disk i
            sortedIndexes := d.sortedIndexes ++ [d.totalCount]
            totalCount := d.totalCount + 1
            isSorted := false }, none)

/-- Method `Adds`: `Add` for each item in order, stopping at the first
failure and returning it; earlier items stay committed. -/
def Adds (env : Env T) (d : DBList T) : List T → DBList T × Option DBErr
  | [] => (d, none)
  | item :: rest =>
    match Add env d item with
    | (d2, some e) => (d2, some e)
    | (d2, none) => Adds env d2 rest

/-- Method `Size`: returns `totalCount`. -/
def Size (d : DBList T) : Nat :=
  d.totalCount

/-- Method `retrieveFromDisk`: reads the record file for a physical position
(`os.ReadFile`, failing if the file is absent) and decodes it
(`json.Unmarshal`, failing on malformed bytes). -/
def retrieveFromDisk (env : Env T) (d : DBList T) (index : Nat) : Except DBErr T :=
  match d.disk index with
  | none => Except.error DBErr.ioError
  | some data =>
    match env.decode data with
    | Except.error _ => Except.error DBErr.decodeError
    | Except.ok item => Except.ok item

/-- Method `getFromStorage`: memory when the physical position is below
`len(memoryData)`, disk otherwise. -/
def getFromStorage (env : Env T) (d : DBList T) (index : Nat) : Except DBErr T :=
  if h : index < d.memoryData.length then
    Except.ok (d.memoryData.get ⟨index, h⟩)
  else
    retrieveFromDisk env d index

/-- Method `Get` on its meaningful (non-negative) argument range: out of
range when `index >= len(sortedIndexes)`, otherwise reads the item at
physical position `sortedIndexes[index]`. -/
def Get (env : Env T) (d : DBList T) (index : Nat) : Except DBErr T :=
  if h : index < d.sortedIndexes.length then
    getFromStorage env d (d.sortedIndexes.get ⟨index, h⟩)
  else
    Except.error DBErr.indexOutOfRange

/-- Outcome of running `Get` on an arbitrary machine integer: a returned
item, a returned error value, or an uncatchable runtime fault (Go panic). -/
inductive GetOutcome (T : Type) where
  | ok (item : T)
  | err (e : DBErr)
  | fatal
deriving DecidableEq

/-- Method `Get` on an arbitrary `int` argument.  The Go code only guards
`index >= len(d.sortedIndexes)`; any surviving index is then used to index
the `sortedIndexes` slice, which raises a runtime panic (`GetOutcome.fatal`)
exactly when the index is negative. -/
def GetInt (env : Env T) (d : DBList T) (index : Int) : GetOutcome T :=
  if (d.sortedIndexes.length : Int) ≤ index then
    GetOutcome.err DBErr.indexOutOfRange
  else if h : 0 ≤ index ∧ index.toNat < d.sortedIndexes.length then
    match getFromStorage env d (d.sortedIndexes.get ⟨index.toNat, h.2⟩) with
    | Except.ok t => GetOutcome.ok t
    | Except.error e => GetOutcome.err e
  else
    GetOutcome.fatal

/-- Item value used by `Sort`'s comparison callback for a physical position:
`itemA, _ := d.getFromStorage(...)` discards the error, so a failed read
contributes Go's zero value of `T` (modelled by `default`). -/
def itemForCompare [Inhabited T] (env : Env T) (d : DBList T) (p : Nat) : T :=
  match getFromStorage env d p with
  | Except.ok t => t
  | Except.error _ => default

/-- Order on physical positions induced by the strict `compare` callback,
in the form needed by a stable sort: `p` may stay before `q` unless the item
at `q` must sort strictly before the item at `p`. -/
abbrev sortLE [Inhabited T] (env : Env T) (cmp : T → T → Bool) (d : DBList T)
    (p q : Nat) : Prop :=
  cmp (itemForCompare env d q) (itemForCompare env d p) = false

/-- Method `Sort` (named `SortDB` here because `Sort` is reserved in Lean):
a no-op when `isSorted` is set, otherwise stably sorts `sortedIndexes` by the
materialised items (`sort.SliceStable`) and sets `isSorted`. -/
def SortDB [Inhabited T] (env : Env T) (cmp : T → T → Bool) (d : DBList T) : DBList T :=
  if d.isSorted then d
  else
    { d with
      sortedIndexes := d.sortedIndexes.insertionSort (sortLE env cmp d)
      isSorted := true }

/-- Loop body of `Iterator` over a list of logical indexes, sequentially:
a successful `Get` yields the item into the channel, a failed `Get` logs the
index (`slog.Error`) and continues.  Returns (yielded items, logged
indexes), each in traversal order. -/
def iterLoop (env : Env T) (d : DBList T) : List Nat → List T × List Nat
  | [] => ([], [])
  | i :: rest =>
    let r := iterLoop env d rest
    match Get env d i with
    | Except.ok t => (t :: r.1, r.2)
    | Except.error _ => (r.1, i :: r.2)

/-- Method `Iterator`, modelled as its sequential uncancelled execution:
the producer loop walks logical indexes `0 .. totalCount-1`. -/
def iterRun (env : Env T) (d : DBList T) : List T × List Nat :=
  iterLoop env d (List.range d.totalCount)

/-- States reachable from a fresh list by completed public operations
(`Add`, and therefore `Adds`, which loops `Add`, and `Sort`; `Get`, `Size`
and `Iterator` do not change the state).  A failed `Add` is included: it
returns with the list fields unchanged. -/
inductive Reachable [Inhabited T] : DBList T → Prop where
  | init (path : String) (cap : Nat) : Reachable (NewDBList T path cap)
  | add (env : Env T) (item : T) {d : DBList T} :
      Reachable d → Reachable (Add env d item).1
  | sort (env : Env T) (cmp : T → T → Bool) {d : DBList T} :
      Reachable d → Reachable (SortDB env cmp d)

/-! ### Basic lemmas about `SortDB` and `Add` -/

lemma sortDB_isSorted [Inhabited T] (env : Env T) (cmp : T → T → Bool) (d : DBList T) :
    (SortDB env cmp d).isSorted = true := by
  unfold SortDB
  split
  · next h => exact h
  · rfl

lemma sortDB_of_isSorted [Inhabited T] (env : Env T) (cmp : T → T → Bool) (d : DBList T)
    (h : d.isSorted = true) : SortDB env cmp d = d := by
  unfold SortDB
  simp [h]

lemma sortDB_perm [Inhabited T] (env : Env T) (cmp : T → T → Bool) (d : DBList T) :
    (SortDB env cmp d).sortedIndexes.Perm d.sortedIndexes := by
  unfold SortDB
  split
  · exact List.Perm.refl _
  · simpa using List.perm_insertionSort (sortLE env cmp d) d.sortedIndexes

lemma sortDB_totalCount [Inhabited T] (env : Env T) (cmp : T → T → Bool) (d : DBList T) :
    (SortDB env cmp d).totalCount = d.totalCount := by
  unfold SortDB
  split <;> rfl

/-- Case analysis on one `Add` call: either it succeeds, appending the new
physical position and bumping the count, or it fails, leaving `totalCount`,
`sortedIndexes`, `isSorted` and `memoryData` untouched. -/
lemma Add_cases (env : Env T) (d : DBList T) (item : T) :
    ((Add env d item).2 = none ∧
      (Add env d item).1.sortedIndexes = d.sortedIndexes ++ [d.totalCount] ∧
      (Add env d item).1.totalCount = d.totalCount + 1 ∧
      (Add env d item).1.isSorted = false) ∨
    ((Add env d item).2.isSome = true ∧
      (Add env d item).1.sortedIndexes = d.sortedIndexes ∧
      (Add env d item).1.totalCount = d.totalCount ∧
      (Add env d item).1.isSorted = d.isSorted ∧
      (Add env d item).1.memoryData = d.memoryData) := by
  unfold Add
  split
  · exact Or.inl ⟨rfl, rfl, rfl, rfl⟩
  · split
    · exact Or.inr ⟨rfl, rfl, rfl, rfl, rfl⟩
    · split
      · exact Or.inr ⟨rfl, rfl, rfl, rfl, rfl⟩
      · split
        · exact Or.inr ⟨rfl, rfl, rfl, rfl, rfl⟩
        · split
          · exact Or.inr ⟨rfl, rfl, rfl, rfl, rfl⟩
          · exact Or.inl ⟨rfl, rfl, rfl, rfl⟩

/-- The order index of every reachable state is a permutation of
`[0, totalCount)`. -/
theorem reachable_perm [Inhabited T] {d : DBList T} (h : Reachable d) :
    d.sortedIndexes.Perm (List.range d.totalCount) := by
  induction h with
  | init path cap => simp [NewDBList]
  | add env item hr ih =>
    rcases Add_cases env _ item with ⟨_, hs, ht, _⟩ | ⟨_, hs, ht, _, _⟩
    · rw [hs, ht, List.range_succ]
      exact ih.append_right _
    · rw [hs, ht]
      exact ih
  | sort env cmp hr ih =>
    rw [sortDB_totalCount]
    exact (sortDB_perm env cmp _).trans ih

/-! ### Shape of a list built by successful insertions from a fresh list -/

/-- Invariant characterising the state after the items `done` have been
inserted, in order and all successfully, into a fresh list of capacity
`cap`: the first `cap` of them are hot, the rest spilled, with one encoded
record per spilled physical position and nothing else on disk. -/
def FreshInv (env : Env T) (cap : Nat) (done : List T) (s : DBList T) : Prop :=
  s.maxInMemory = cap ∧
  s.memoryData = done.take cap ∧
  s.totalCount = done.length ∧
  s.sortedIndexes = List.range done.length ∧
  (∀ p : Nat, cap ≤ p → p < done.length →
    ∃ b t, done[p]? = some t ∧ env.encode t = Except.ok b ∧ s.disk p = some b) ∧
  (∀ p : Nat, p < cap ∨ done.length ≤ p → s.disk p = none)

lemma Add_ok_freshInv (env : Env T) (cap : Nat) (done : List T) (item : T)
    (s : DBList T) (hs : FreshInv env cap done s)
    (hok : (Add env s item).2 = none) :
    FreshInv env cap (done ++ [item]) (Add env s item).1 := by
  obtain ⟨hcap, hmem, hcount, hidx, hhot, hnone⟩ := hs
  unfold Add at hok ⊢
  by_cases hlt : s.memoryData.length < s.maxInMemory
  · have hdone : done.length < cap := by
      rw [hmem, hcap, List.length_take] at hlt
      omega
    rw [if_pos hlt] at hok ⊢
    refine ⟨hcap, ?_, by simp [hcount], by simp [hcount, hidx, List.range_succ], ?_, ?_⟩
    · show s.memoryData ++ [item] = (done ++ [item]).take cap
      rw [hmem, List.take_of_length_le (by omega), List.take_of_length_le (by simp; omega)]
    · intro p hp1 hp2
      simp only [List.length_append, List.length_singleton] at hp2
      exfalso
      omega
    · intro p hp
      apply hnone
      simp only [List.length_append, List.length_singleton] at hp
      omega
  · have hge : cap ≤ done.length := by
      rw [hmem, hcap, List.length_take] at hlt
      omega
    rw [if_neg hlt] at hok ⊢
    cases hmk : env.mkdirFails s.totalCount with
    | true => rw [hmk] at hok; simp at hok
    | false =>
      rw [hmk] at hok
      cases henc : env.encode item with
      | error e => rw [henc] at hok; simp at hok
      | ok data =>
        rw [henc] at hok
        cases hcr : env.createFails s.totalCount with
        | true => rw [hcr] at hok; simp at hok
        | false =>
          rw [hcr] at hok
          cases hwr : env.writeFails s.totalCount with
          | true => rw [hwr] at hok; simp at hok
          | false =>
            refine ⟨hcap, ?_, by simp [hcount], by simp [hcount, hidx, List.range_succ],
              ?_, ?_⟩
            · show s.memoryData = (done ++ [item]).take cap
              rw [hmem, List.take_append_of_le_length hge]
            · intro p hp1 hp2
              simp only [List.length_append, List.length_singleton] at hp2
              by_cases hpd : p = done.length
              · refine ⟨data, item, ?_, henc, ?_⟩
                · rw [hpd]
                  exact List.getElem?_concat_length done item
                · show (if p = s.totalCount then some data else s.disk p) = some data
                  rw [if_pos (by rw [hcount, hpd])]
              · obtain ⟨b, t, hbt1, hbt2, hbt3⟩ := hhot p hp1 (by omega)
                refine ⟨b, t, ?_, hbt2, ?_⟩
                · rw [List.getElem?_append_left (by omega)]
                  exact hbt1
                · show (if p = s.totalCount then some data else s.disk p) = some b
                  rw [if_neg (by rw [hcount]; exact hpd)]
                  exact hbt3
            · intro p hp
              simp only [List.length_append, List.length_singleton] at hp
              show (if p = s.totalCount then some data else s.disk p) = none
              rw [if_neg (by rw [hcount]; omega)]
              exact hnone p (by omega)

lemma Adds_ok_freshInv (env : Env T) (cap : Nat) :
    ∀ (rest done : List T) (s : DBList T), FreshInv env cap done s →
      (Adds env s rest).2 = none →
      FreshInv env cap (done ++ rest) (Adds env s rest).1 := by
  intro rest
  induction rest with
  | nil =>
    intro done s hs _
    simpa using hs
  | cons item rest ih =>
    intro done s hs hok
    unfold Adds at hok ⊢
    rcases hA : Add env s item with ⟨d2, e2⟩
    cases e2 with
    | some e =>
      rw [hA] at hok
      simp at hok
    | none =>
      rw [hA] at hok
      have h2 : FreshInv env cap (done ++ [item]) d2 := by
        have h3 := Add_ok_freshInv env cap done item s hs (by rw [hA])
        rw [hA] at h3
        exact h3
      have h4 := ih (done ++ [item]) d2 h2 hok
      rw [List.append_cons done item rest]
      exact h4

lemma freshInv_init (env : Env T) (path : String) (cap : Nat) :
    FreshInv env cap [] (NewDBList T path cap) := by
  refine ⟨rfl, by simp [NewDBList], rfl, rfl, ?_, fun p _ => rfl⟩
  intro p _ hp
  exact absurd hp (by simp)

/-! ### Lemmas about the iteration loop -/

lemma iterLoop_fst (env : Env T) (d : DBList T) :
    ∀ l : List Nat,
      (iterLoop env d l).1 = l.filterMap (fun i => (Get env d i).toOption) := by
  intro l
  induction l with
  | nil => rfl
  | cons i rest ih =>
    unfold iterLoop
    cases hG : Get env d i with
    | ok t => simp [List.filterMap_cons, hG, Except.toOption, ih]
    | error e => simp [List.filterMap_cons, hG, Except.toOption, ih]

lemma iterLoop_snd (env : Env T) (d : DBList T) :
    ∀ l : List Nat,
      (iterLoop env d l).2 = l.filter (fun i => !(Get env d i).isOk) := by
  intro l
  induction l with
  | nil => rfl
  | cons i rest ih =>
    unfold iterLoop
    cases hG : Get env d i with
    | ok t => simp [List.filter_cons, hG, Except.isOk, Except.toBool, ih]
    | error e => simp [List.filter_cons, hG, Except.isOk, Except.toBool, ih]

lemma iterLoop_lengths (env : Env T) (d : DBList T) :
    ∀ l : List Nat,
      (iterLoop env d l).1.length + (iterLoop env d l).2.length = l.length := by
  intro l
  induction l with
  | nil => rfl
  | cons i rest ih =>
    unfold iterLoop
    cases hG : Get env d i with
    | ok t => simpa using by omega
    | error e => simpa using by omega

/-! ### Concrete collaborators and states used by witnesses -/

/-- Codec for `Nat` items (a one-number record) with a filesystem that never
fails. -/
def natEnv : Env Nat :=
  { encode := fun n => Except.ok [n]
    decode := fun b => match b with | [n] => Except.ok n | _ => Except.error ()
    mkdirFails := fun _ => false
    createFails := fun _ => false
    writeFails := fun _ => false }

/-- Same collaborators, but every `os.MkdirAll` call fails. -/
def mkdirFailEnv : Env Nat :=
  { natEnv with mkdirFails := fun _ => true }

/-- Ascending comparison callback. -/
def cmpLt : Nat → Nat → Bool := fun a b => decide (a < b)

/-- Comparator under which all items compare equal (a strict weak ordering:
the empty one). -/
def cmpNone : Nat → Nat → Bool := fun _ _ => false

/-- A list holding the single item `7`, built by one `Add` on a fresh list. -/
def oneItemList : DBList Nat :=
  (Add natEnv (NewDBList Nat "" 2) 7).1

/-- A list of capacity 1 holding `5` (hot) and `6` (spilled), built by two
`Add` calls on a fresh list. -/
def twoItemList : DBList Nat :=
  (Add natEnv (Add natEnv (NewDBList Nat "" 1) 5).1 6).1

/-! ### Claim theorems -/

/-- C5: `Add` is all-or-nothing: whenever it returns an error (directory
creation, encoding, file creation or file write failure on the spill path),
`totalCount`, `sortedIndexes`, the `isSorted` flag and the in-memory buffer
are left exactly as they were before the call. -/
theorem claim5_add_all_or_nothing (env : Env T) (d : DBList T) (item : T) (e : DBErr)
    (h : (Add env d item).2 = some e) :
    (Add env d item).1.totalCount = d.totalCount ∧
    (Add env d item).1.sortedIndexes = d.sortedIndexes ∧
    (Add env d item).1.isSorted = d.isSorted ∧
    (Add env d item).1.memoryData = d.memoryData := by
  rcases Add_cases env d item with ⟨h0, _, _, _⟩ | ⟨_, h1, h2, h3, h4⟩
  · rw [h0] at h
    exact absurd h (by simp)
  · exact ⟨h2, h1, h3, h4⟩

/-- Witness for C5 at a concrete failing `Add`: a fresh capacity-0 list
spills immediately and `MkdirAll` fails. -/
theorem claim5_witness :
    (Add mkdirFailEnv (NewDBList Nat "" 0) 7).2 = some DBErr.ioError ∧
    (Add mkdirFailEnv (NewDBList Nat "" 0) 7).1.totalCount = (NewDBList Nat "" 0).totalCount ∧
    (Add mkdirFailEnv (NewDBList Nat "" 0) 7).1.sortedIndexes = (NewDBList Nat "" 0).sortedIndexes ∧
    (Add mkdirFailEnv (NewDBList Nat "" 0) 7).1.isSorted = (NewDBList Nat "" 0).isSorted ∧
    (Add mkdirFailEnv (NewDBList Nat "" 0) 7).1.memoryData = (NewDBList Nat "" 0).memoryData :=
  ⟨rfl, claim5_add_all_or_nothing mkdirFailEnv (NewDBList Nat "" 0) 7 DBErr.ioError rfl⟩

/-- C6: `Sort` is idempotent: sorting twice in a row with the same
comparator leaves the state (in particular `sortedIndexes`) unchanged after
the second call, and when the `isSorted` flag is already set `Sort` is a
complete no-op. -/
theorem claim6_sort_idempotent [Inhabited T] (env env2 : Env T) (cmp : T → T → Bool)
    (d : DBList T) :
    SortDB env2 cmp (SortDB env cmp d) = SortDB env cmp d ∧
    (d.isSorted = true → SortDB env cmp d = d) :=
  ⟨sortDB_of_isSorted env2 cmp _ (sortDB_isSorted env cmp d),
    fun h => sortDB_of_isSorted env cmp d h⟩

/-- Witness for C6 at a fresh list (whose `isSorted` flag starts true). -/
theorem claim6_witness :
    (NewDBList Nat "" 3).isSorted = true ∧
    SortDB natEnv cmpLt (NewDBList Nat "" 3) = NewDBList Nat "" 3 ∧
    SortDB natEnv cmpLt (SortDB natEnv cmpLt (NewDBList Nat "" 3)) =
      SortDB natEnv cmpLt (NewDBList Nat "" 3) :=
  ⟨rfl, (claim6_sort_idempotent natEnv natEnv cmpLt (NewDBList Nat "" 3)).2 rfl,
    (claim6_sort_idempotent natEnv natEnv cmpLt (NewDBList Nat "" 3)).1⟩

/-- C10: the `isSorted` flag does not record which comparator was applied:
after `Sort(cmpA)` completes, a `Sort(cmpB)` with any comparator — and any
collaborator behaviour — returns immediately, leaving the state (hence
`sortedIndexes`) unchanged. -/
theorem claim10_sorted_flag_forgets_comparator [Inhabited T] (env1 env2 : Env T)
    (cmpA cmpB : T → T → Bool) (d : DBList T) :
    (SortDB env1 cmpA d).isSorted = true ∧
    SortDB env2 cmpB (SortDB env1 cmpA d) = SortDB env1 cmpA d :=
  ⟨sortDB_isSorted env1 cmpA d,
    sortDB_of_isSorted env2 cmpB _ (sortDB_isSorted env1 cmpA d)⟩

/-- C9: evaluation of `Get` at the failing input `-1`: the bounds check
`index >= len(d.sortedIndexes)` does not catch negative indexes, so
`d.sortedIndexes[index]` raises a runtime panic (an uncatchable fault,
`GetOutcome.fatal`), while nearby inputs return values or error values. -/
theorem claim9_negative_get_is_fatal :
    GetInt natEnv oneItemList 0 = GetOutcome.ok 7 ∧
    GetInt natEnv oneItemList 5 = GetOutcome.err DBErr.indexOutOfRange ∧
    GetInt natEnv oneItemList (-1) = GetOutcome.fatal := by
  decide

/-- C2: on every reachable state the order index is a permutation of
`[0, totalCount)` — length `totalCount`, no duplicates, no out-of-range
entries — and a successful `Add` appends exactly the new physical position
while `Sort` only permutes the existing entries. -/
theorem claim2_order_index_invariant [Inhabited T] (d : DBList T) (h : Reachable d)
    (env : Env T) (item : T) (cmp : T → T → Bool) :
    d.sortedIndexes.length = d.totalCount ∧
    d.sortedIndexes.Perm (List.range d.totalCount) ∧
    d.sortedIndexes.Nodup ∧
    (∀ x ∈ d.sortedIndexes, x < d.totalCount) ∧
    ((Add env d item).2 = none →
      (Add env d item).1.sortedIndexes = d.sortedIndexes ++ [d.totalCount]) ∧
    (SortDB env cmp d).sortedIndexes.Perm d.sortedIndexes := by
  have hp := reachable_perm h
  refine ⟨?_, hp, ?_, ?_, ?_, sortDB_perm env cmp d⟩
  · simpa using hp.length_eq
  · exact hp.symm.nodup (List.nodup_range _)
  · intro x hx
    simpa using hp.mem_iff.mp hx
  · intro hok
    rcases Add_cases env d item with ⟨_, hs, _, _⟩ | ⟨hsome, _, _, _, _⟩
    · exact hs
    · rw [hok] at hsome
      simp at hsome

/-- Witness for C2 at a concrete reachable two-item state. -/
theorem claim2_witness :
    twoItemList.sortedIndexes.length = twoItemList.totalCount ∧
    twoItemList.sortedIndexes.Perm (List.range twoItemList.totalCount) ∧
    twoItemList.sortedIndexes.Nodup ∧
    (SortDB natEnv cmpLt twoItemList).sortedIndexes.Perm twoItemList.sortedIndexes ∧
    (Add natEnv twoItemList 9).1.sortedIndexes =
      twoItemList.sortedIndexes ++ [twoItemList.totalCount] := by
  obtain ⟨h1, h2, h3, _, h5, h6⟩ :=
    claim2_order_index_invariant twoItemList
      (Reachable.add natEnv 6 (Reachable.add natEnv 5 (Reachable.init "" 1)))
      natEnv 9 cmpLt
  exact ⟨h1, h2, h3, h6, h5 rfl⟩

lemma Get_of_lt (env : Env T) (d : DBList T) (i : Nat) (h : i < d.sortedIndexes.length) :
    Get env d i = getFromStorage env d (d.sortedIndexes.get ⟨i, h⟩) := by
  unfold Get
  exact dif_pos h

lemma getFromStorage_hot (env : Env T) (d : DBList T) (p : Nat)
    (h : p < d.memoryData.length) :
    getFromStorage env d p = Except.ok (d.memoryData.get ⟨p, h⟩) := by
  unfold getFromStorage
  exact dif_pos h

lemma getFromStorage_cold (env : Env T) (d : DBList T) (p : Nat)
    (h : ¬p < d.memoryData.length) :
    getFromStorage env d p = retrieveFromDisk env d p := by
  unfold getFromStorage
  exact dif_neg h

/-- `getFromStorage` never produces the out-of-range error: that error is
minted only by `Get`'s explicit bounds check. -/
lemma getFromStorage_ne_outOfRange (env : Env T) (d : DBList T) (p : Nat) :
    getFromStorage env d p ≠ Except.error DBErr.indexOutOfRange := by
  intro hEq
  unfold getFromStorage retrieveFromDisk at hEq
  split at hEq
  · simp at hEq
  · split at hEq
    · simp at hEq
    · split at hEq
      · simp at hEq
      · simp at hEq

/-- C3: characterisation of `Get` on a list whose order index has one entry
per item (`len(sortedIndexes) = totalCount`, the C2 invariant): it fails
with the index-out-of-range error exactly on logical indexes `≥ totalCount`,
and below that it reads the physical position `sortedIndexes[i]` — from the
in-memory buffer when that position is below the buffer's length, otherwise
from the disk record, failing with an IO error when the file is missing and
a decode error when its bytes are malformed. -/
theorem claim3_get_characterisation [Inhabited T] (env : Env T) (d : DBList T)
    (hlen : d.sortedIndexes.length = d.totalCount) (i : Nat) :
    (Get env d i = Except.error DBErr.indexOutOfRange ↔ d.totalCount ≤ i) ∧
    (i < d.totalCount →
      ((d.sortedIndexes.getD i 0 < d.memoryData.length →
          Get env d i =
            Except.ok (d.memoryData.getD (d.sortedIndexes.getD i 0) default)) ∧
        (d.memoryData.length ≤ d.sortedIndexes.getD i 0 →
          d.disk (d.sortedIndexes.getD i 0) = none →
          Get env d i = Except.error DBErr.ioError) ∧
        (∀ b, d.memoryData.length ≤ d.sortedIndexes.getD i 0 →
          d.disk (d.sortedIndexes.getD i 0) = some b →
          env.decode b = Except.error () →
          Get env d i = Except.error DBErr.decodeError) ∧
        (∀ b t, d.memoryData.length ≤ d.sortedIndexes.getD i 0 →
          d.disk (d.sortedIndexes.getD i 0) = some b →
          env.decode b = Except.ok t →
          Get env d i = Except.ok t))) := by
  constructor
  · constructor
    · intro hEq
      by_contra hge
      have hi : i < d.sortedIndexes.length := by omega
      rw [Get_of_lt env d i hi] at hEq
      exact getFromStorage_ne_outOfRange env d _ hEq
    · intro hN
      unfold Get
      exact dif_neg (by omega)
  · intro hi
    have hilt : i < d.sortedIndexes.length := by omega
    have hgetD : d.sortedIndexes.getD i 0 = d.sortedIndexes.get ⟨i, hilt⟩ := by
      rw [List.getD_eq_getElem _ _ hilt]
      rfl
    rw [Get_of_lt env d i hilt, hgetD]
    refine ⟨?_, ?_, ?_, ?_⟩
    · intro hm
      rw [getFromStorage_hot env d _ hm, List.getD_eq_getElem _ _ hm]
      rfl
    · intro hm hdisk
      rw [getFromStorage_cold env d _ (by omega)]
      unfold retrieveFromDisk
      simp only [hdisk]
    · intro b hm hdisk hdec
      rw [getFromStorage_cold env d _ (by omega)]
      unfold retrieveFromDisk
      simp only [hdisk, hdec]
    · intro b t hm hdisk hdec
      rw [getFromStorage_cold env d _ (by omega)]
      unfold retrieveFromDisk
      simp only [hdisk, hdec]

/-- A three-item list exercising all of `Get`'s code paths: position 0 hot,
position 1 cold with its record missing, position 2 cold with malformed
bytes. -/
def getState : DBList Nat :=
  { memoryData := [3]
    diskPath := ""
    maxInMemory := 1
    totalCount := 3
    sortedIndexes := [0, 1, 2]
    isSorted := false
    disk := fun p => if p = 2 then some [] else none }

/-- Witness for C3: each `Get` path at a concrete list. -/
theorem claim3_witness :
    Get natEnv getState 0 = Except.ok 3 ∧
    Get natEnv getState 1 = Except.error DBErr.ioError ∧
    Get natEnv getState 2 = Except.error DBErr.decodeError ∧
    Get natEnv getState 5 = Except.error DBErr.indexOutOfRange := by
  refine ⟨?_, ?_, ?_, ?_⟩
  · exact ((claim3_get_characterisation natEnv getState rfl 0).2 (by decide)).1 (by decide)
  · exact ((claim3_get_characterisation natEnv getState rfl 1).2 (by decide)).2.1
      (by decide) rfl
  · exact ((claim3_get_characterisation natEnv getState rfl 2).2 (by decide)).2.2.1
      [] (by decide) rfl rfl
  · exact (claim3_get_characterisation natEnv getState rfl 5).1.mpr (by decide)

/-- C1: starting from a fresh list of capacity `cap`, after a sequence of
successful `Add` calls (via `Adds`) of `items`: `Size` returns the number of
items, the in-memory buffer holds exactly the first `min(N, cap)` items in
insertion order, and the disk holds exactly one encoded record per spilled
physical position `cap ≤ p < N` and nothing else. -/
theorem claim1_fresh_insertions (env : Env T) (path : String) (cap : Nat)
    (items : List T)
    (hok : (Adds env (NewDBList T path cap) items).2 = none) :
    Size (Adds env (NewDBList T path cap) items).1 = items.length ∧
    (Adds env (NewDBList T path cap) items).1.memoryData = items.take cap ∧
    (Adds env (NewDBList T path cap) items).1.memoryData.length =
      min items.length cap ∧
    (∀ p : Nat, cap ≤ p → p < items.length →
      ∃ b t, items[p]? = some t ∧ env.encode t = Except.ok b ∧
        (Adds env (NewDBList T path cap) items).1.disk p = some b) ∧
    (∀ p : Nat, p < cap ∨ items.length ≤ p →
      (Adds env (NewDBList T path cap) items).1.disk p = none) := by
  have h := Adds_ok_freshInv env cap items [] (NewDBList T path cap)
    (freshInv_init env path cap) hok
  rw [List.nil_append] at h
  obtain ⟨hcap, hmem, hcount, hidx, hhot, hnone⟩ := h
  refine ⟨hcount, hmem, ?_, hhot, hnone⟩
  rw [hmem, List.length_take, Nat.min_comm]

/-- Witness for C1: capacity 2, three successful insertions; the first two
items stay hot, the third is spilled to the record for position 2, and no
other record exists. -/
theorem claim1_witness :
    Size (Adds natEnv (NewDBList Nat "" 2) [10, 20, 30]).1 = 3 ∧
    (Adds natEnv (NewDBList Nat "" 2) [10, 20, 30]).1.memoryData = [10, 20] ∧
    (Adds natEnv (NewDBList Nat "" 2) [10, 20, 30]).1.disk 2 = some [30] ∧
    (Adds natEnv (NewDBList Nat "" 2) [10, 20, 30]).1.disk 1 = none ∧
    (Adds natEnv (NewDBList Nat "" 2) [10, 20, 30]).1.disk 3 = none := by
  obtain ⟨h1, h2, h3, h4, h5⟩ := claim1_fresh_insertions natEnv "" 2 [10, 20, 30] rfl
  refine ⟨h1, by rw [h2]; rfl, ?_, h5 1 (by decide), h5 3 (by decide)⟩
  obtain ⟨b, t, hbt1, hbt2, hbt3⟩ := h4 2 (by decide) (by decide)
  have ht : t = 30 := by
    simpa using hbt1.symm
  have hb : b = [30] := by
    rw [ht] at hbt2
    simpa [natEnv] using hbt2.symm
  rw [hb] at hbt3
  exact hbt3

/-- C8: iteration never fails outright on a bad record: when `Get` fails
exactly on the indexes selected by `S`, the iterator yields, in ascending
logical order, exactly the items of the successful indexes, and logs exactly
the failing indexes (one report each, in ascending order); the yielded and
logged counts add up to `totalCount`. -/
theorem claim8_iterator_skips_failures (env : Env T) (d : DBList T) (S : Nat → Bool)
    (hS : ∀ i, i < d.totalCount → (Get env d i).isOk = !S i) :
    (iterRun env d).1 =
      (List.range d.totalCount).filterMap (fun i => (Get env d i).toOption) ∧
    (iterRun env d).2 = (List.range d.totalCount).filter S ∧
    (iterRun env d).1.length + ((List.range d.totalCount).filter S).length =
      d.totalCount := by
  have h1 := iterLoop_fst env d (List.range d.totalCount)
  have h2 := iterLoop_snd env d (List.range d.totalCount)
  have h3 := iterLoop_lengths env d (List.range d.totalCount)
  have hfil : (List.range d.totalCount).filter (fun i => !(Get env d i).isOk) =
      (List.range d.totalCount).filter S := by
    apply List.filter_congr
    intro i hi
    rw [hS i (List.mem_range.mp hi), Bool.not_not]
  have h4 : (iterLoop env d (List.range d.totalCount)).2 =
      (List.range d.totalCount).filter S := h2.trans hfil
  refine ⟨h1, h4, ?_⟩
  rw [iterRun, ← h4, h3]
  exact List.length_range _

/-- A fifty-item list whose record for physical (and logical) position 30 —
the first spilled position — has been deleted out-of-band; every other
lookup succeeds. -/
def iterState : DBList Nat :=
  { memoryData := List.range 30
    diskPath := ""
    maxInMemory := 30
    totalCount := 50
    sortedIndexes := List.range 50
    isSorted := false
    disk := fun p => if 31 ≤ p ∧ p ≤ 49 then some [p] else none }

/-- Witness for C8: iterating the fifty-item list with record 30 missing
yields 49 items and logs exactly one report, for index 30. -/
theorem claim8_witness :
    (iterRun natEnv iterState).1.length = 49 ∧
    (iterRun natEnv iterState).2 = [30] := by
  obtain ⟨h1, h2, h3⟩ := claim8_iterator_skips_failures natEnv iterState
    (fun i => i == 30) (by decide)
  constructor
  · have h5 : ((List.range iterState.totalCount).filter (fun i => i == 30)).length = 1 := by
      decide
    have h6 : iterState.totalCount = 50 := rfl
    omega
  · rw [h2]
    decide

/-- The list whose `Sort` is observed by the C7 counterexample: position 0
(item 3) is hot, position 1 is spilled but its record has been deleted, so
reading it fails with an IO error. -/
def coldReadState : DBList Nat :=
  { memoryData := [3]
    diskPath := ""
    maxInMemory := 1
    totalCount := 2
    sortedIndexes := [0, 1]
    isSorted := false
    disk := fun _ => none }

/-- The same list with its record for position 1 intact, holding the encoded
item 5. -/
def coldReadStateIntact : DBList Nat :=
  { coldReadState with disk := fun p => if p = 1 then some [5] else none }

/-- Claim-side predicate (follows the spec wording for C7, not the code):
all the storage reads `Sort`'s comparisons perform succeed.  C7 asserts that
read failures during `Sort` are surfaced; the code discards them instead. -/
def sortReadsOk (env : Env T) (d : DBList T) : Bool :=
  d.sortedIndexes.all fun p => (getFromStorage env d p).isOk

/-- C7 counterexample: sorting `coldReadState` ascending performs a storage
read that fails (position 1, IO error), yet `Sort` completes normally — its
signature has no error channel — and silently substitutes the zero value 0
for the unreadable item, producing the order `[1, 0]`; with the record
intact (true item 5) the same sort produces `[0, 1]`.  The dropped error is
therefore both real and observable, refuting the claim that failures during
`Sort`'s comparisons are surfaced to the caller. -/
theorem claim7_counterexample :
    sortReadsOk natEnv coldReadState = false ∧
    getFromStorage natEnv coldReadState 1 = Except.error DBErr.ioError ∧
    (SortDB natEnv cmpLt coldReadState).isSorted = true ∧
    (SortDB natEnv cmpLt coldReadState).sortedIndexes = [1, 0] ∧
    (SortDB natEnv cmpLt coldReadStateIntact).sortedIndexes = [0, 1] :=
  ⟨by decide, rfl, by decide, by decide, by decide⟩

/-- Exact failure condition of `Add`: it spills (memory full) and one of the
collaborator calls on the spill path fails. -/
def addSpillFails (env : Env T) (d : DBList T) (item : T) : Prop :=
  d.maxInMemory ≤ d.memoryData.length ∧
  (env.mkdirFails d.totalCount = true ∨ env.encode item = Except.error () ∨
    env.createFails d.totalCount = true ∨ env.writeFails d.totalCount = true)

/-- C7 (amended): `Add` (and therefore `Adds`, its loop) returns an error
exactly when a collaborator call fails, and `Get` surfaces its errors (C3);
`Sort`, however, drops storage-read errors from its comparisons — a failed
read contributes the zero value of `T` — and always completes normally. -/
theorem claim7_amended_error_surfacing [Inhabited T] (env : Env T) (d : DBList T)
    (item : T) (cmp : T → T → Bool) (p : Nat) :
    ((Add env d item).2.isSome = true ↔ addSpillFails env d item) ∧
    ((getFromStorage env d p).isOk = false → itemForCompare env d p = default) ∧
    (SortDB env cmp d).isSorted = true := by
  refine ⟨?_, ?_, sortDB_isSorted env cmp d⟩
  · unfold Add addSpillFails
    by_cases hlt : d.memoryData.length < d.maxInMemory
    · rw [if_pos hlt]
      simp only [Option.isSome_none, Bool.false_eq_true, false_iff]
      intro hc
      omega
    · rw [if_neg hlt]
      have hge : d.maxInMemory ≤ d.memoryData.length := by omega
      cases hmk : env.mkdirFails d.totalCount with
      | true => simp [hge, hmk]
      | false =>
        cases henc : env.encode item with
        | error u =>
          cases u
          simp [hge, hmk, henc]
        | ok data =>
          cases hcr : env.createFails d.totalCount with
          | true => simp [hge, hmk, henc, hcr]
          | false =>
            cases hwr : env.writeFails d.totalCount with
            | true => simp [hge, hmk, henc, hcr, hwr]
            | false => simp [hge, hmk, henc, hcr, hwr]
  · intro hfail
    unfold itemForCompare
    cases hG : getFromStorage env d p with
    | ok t =>
      rw [hG] at hfail
      simp [Except.isOk, Except.toBool] at hfail
    | error e =>
      rfl

/-- Witness for C7 (amended): a concrete failing `Add` whose error is
surfaced, a concrete failed comparison read that contributes the zero value,
and the corresponding `Sort` completing normally. -/
theorem claim7_witness :
    (Add mkdirFailEnv coldReadState 9).2.isSome = true ∧
    itemForCompare mkdirFailEnv coldReadState 1 = default ∧
    (SortDB mkdirFailEnv cmpLt coldReadState).isSorted = true := by
  obtain ⟨h1, h2, h3⟩ :=
    claim7_amended_error_surfacing mkdirFailEnv coldReadState 9 cmpLt 1
  exact ⟨h1.mpr ⟨by decide, Or.inl rfl⟩, h2 rfl, h3⟩

/-- The list observed by the C4 counterexample: capacity 10 (everything
hot), items 20 then 10 inserted, sorted ascending (order `[1, 0]`), then 30
appended (order `[1, 0, 2]`, flag cleared). -/
def resortState : DBList Nat :=
  (Add natEnv (SortDB natEnv cmpLt (Adds natEnv (NewDBList Nat "" 10) [20, 10]).1) 30).1

/-- C4 counterexample: under the comparator `cmpNone` every two items
compare equal (a strict weak ordering), so the claim says a completed
`Sort(cmpNone)` presents all items in insertion order.  On `resortState`
(whose order index is `[1, 0, 2]` from an earlier ascending sort) the stable
sort keeps `[1, 0, 2]`: the items at physical positions 0 and 1 — inserted
in that order and comparing equal — appear as 1 before 0, refuting the
claim.  Stability is relative to the pre-sort order, not insertion order. -/
theorem claim4_counterexample :
    resortState.isSorted = false ∧
    itemForCompare natEnv resortState 0 = 20 ∧
    itemForCompare natEnv resortState 1 = 10 ∧
    cmpNone (itemForCompare natEnv resortState 0) (itemForCompare natEnv resortState 1) =
      false ∧
    cmpNone (itemForCompare natEnv resortState 1) (itemForCompare natEnv resortState 0) =
      false ∧
    (SortDB natEnv cmpNone resortState).sortedIndexes = [1, 0, 2] := by
  decide

/-- C4 (amended): `Sort` is stable with respect to the order index as it
stands when `Sort` is called: two items that compare equal keep their
relative pre-sort logical order.  When that order is the insertion order
(e.g. no earlier `Sort` has permuted it) equal items keep insertion
order. -/
theorem claim4_sort_stable [Inhabited T] (env : Env T) (cmp : T → T → Bool)
    (d : DBList T) (p q : Nat)
    (hsub : List.Sublist [p, q] d.sortedIndexes)
    (_hpq : cmp (itemForCompare env d p) (itemForCompare env d q) = false)
    (hqp : cmp (itemForCompare env d q) (itemForCompare env d p) = false) :
    List.Sublist [p, q] (SortDB env cmp d).sortedIndexes := by
  unfold SortDB
  split
  · exact hsub
  · exact List.pair_sublist_insertionSort hqp hsub

/-- A fresh two-item list holding two equal items. -/
def equalItemsState : DBList Nat :=
  (Adds natEnv (NewDBList Nat "" 2) [7, 7]).1

/-- Witness for C4 (amended): two equal items inserted in order `0, 1` into
a fresh list are still in that relative order after an ascending sort. -/
theorem claim4_witness :
    List.Sublist [0, 1] equalItemsState.sortedIndexes ∧
    cmpLt (itemForCompare natEnv equalItemsState 0) (itemForCompare natEnv equalItemsState 1) =
      false ∧
    List.Sublist [0, 1] (SortDB natEnv cmpLt equalItemsState).sortedIndexes :=
  ⟨List.Sublist.refl _, by decide,
    claim4_sort_stable natEnv cmpLt equalItemsState 0 1 (List.Sublist.refl _)
      (by decide) (by decide)⟩

end Util
